import Mathlib

/-!
# ChronoStox portfolio ledger: shallow embedding and verification

This file embeds the trade-simulation engine of the ChronoStox repository
(`pages/ChronoTrade.py`, with the analogous handlers in `pages/Live_Market.py`)
and proves/refutes the specified properties of the portfolio ledger, the
valuation/P&L display computations, the trade-log export and the scenario
loader.

Numbers: Python floats are embedded as exact rationals (`Rat`); share
quantities (Python `int`) as `Int`.  Python dicts (`st.session_state.holdings`,
`st.session_state.prices`) are embedded as insertion-ordered association
lists, with dict assignment updating an existing key in place and appending a
fresh key at the end, exactly as CPython dicts do.
-/

namespace ChronoStox

/-- One holdings entry: `{"quantity": ..., "avg_price": ...}` from
`ChronoTrade.py`. -/
structure Position where
  quantity : Int
  avg_price : Rat
deriving DecidableEq, Repr

/-- Trade side, the `action` string argument of `execute_trade_record`
restricted to the two recognized values. -/
inductive Action where
  | buy
  | sell
deriving DecidableEq, Repr

/-- Error kinds of the ledger, one per `st.error` rejection message in
`execute_trade_record`.  `invalidPrice` is named by the specification's
taxonomy; it is included so that claims about it can be stated, although the
source never raises it (there is no price validation in the code). -/
inductive TradeError where
  | invalidQuantity
  | invalidPrice
  | insufficientFunds
  | insufficientHoldings
deriving DecidableEq, Repr

/-- A calendar timestamp, the payload of the `pd.Timestamp` argument `dt`. -/
structure Timestamp where
  year : Nat
  month : Nat
  day : Nat
  hour : Nat
  minute : Nat
  second : Nat
deriving DecidableEq, Repr

/-- Zero-padding to two digits, as `%m`, `%d`, `%H`, `%M`, `%S` in
`strftime`. -/
def pad2 (n : Nat) : String :=
  if n < 10 then "0" ++ toString n else toString n

/-- Zero-padding to four digits, as `%Y` in `strftime`. -/
def pad4 (n : Nat) : String :=
  if n < 10 then "000" ++ toString n
  else if n < 100 then "00" ++ toString n
  else if n < 1000 then "0" ++ toString n
  else toString n

/-- `dt.strftime("%Y-%m-%d %H:%M:%S")`. -/
def fmtTimestamp (t : Timestamp) : String :=
  pad4 t.year ++ "-" ++ pad2 t.month ++ "-" ++ pad2 t.day ++ " " ++
    pad2 t.hour ++ ":" ++ pad2 t.minute ++ ":" ++ pad2 t.second

/-- Round to the nearest integer, ties to even: Python 3's `round` for exact
values. -/
def pyRoundInt (x : Rat) : Int :=
  let f := x.floor
  let frac := x - f
  if frac < 1/2 then f
  else if 1/2 < frac then f + 1
  else if f % 2 = 0 then f else f + 1

/-- Python's `round(x, n)` on an exact value. -/
def roundTo (n : Nat) (x : Rat) : Rat :=
  (pyRoundInt (x * (10 : Rat) ^ n) : Rat) / (10 : Rat) ^ n

/-- One dict appended to `st.session_state.trades` by
`execute_trade_record`. -/
structure TradeRec where
  datetime : String
  ticker : String
  action : String
  quantity : Int
  price : Rat
  value : Rat
  scenario : String
deriving DecidableEq, Repr

/-- The holdings dict `{ticker: {quantity, avg_price}}` as an
insertion-ordered association list. -/
abbrev Holdings := List (String × Position)

/-- The last-known-price dict `st.session_state.prices`. -/
abbrev Prices := List (String × Rat)

/-- Python `d.get(k)`: first binding of the key, if any. -/
def lookupA {α : Type} : List (String × α) → String → Option α
  | [], _ => none
  | (k', v) :: rest, k => if k' = k then some v else lookupA rest k

/-- Python `d[k] = v`: replace the binding in place if the key is present,
append it otherwise. -/
def setA {α : Type} : List (String × α) → String → α → List (String × α)
  | [], k, v => [(k, v)]
  | (k', v') :: rest, k, v =>
      if k' = k then (k, v) :: rest else (k', v') :: setA rest k v

/-- The per-session account state touched by `execute_trade_record`:
`virtual_cash`, `holdings`, `trades`, `prices` and `current_scenario`. -/
structure LedgerState where
  virtual_cash : Rat
  holdings : Holdings
  trades : List TradeRec
  prices : Prices
  currentScenario : Option String
deriving DecidableEq, Repr

/-- Session-state defaults: cash 100,000, no holdings, no trades, no known
prices, no scenario. -/
def initState : LedgerState :=
  { virtual_cash := 100000
    holdings := []
    trades := []
    prices := []
    currentScenario := none }

/-- The `action` string written into a trade record. -/
def Action.str : Action → String
  | .buy => "BUY"
  | .sell => "SELL"

/-- `scenario or st.session_state.current_scenario or "-"`. -/
def scenarioLabel (sc cur : Option String) : String :=
  match sc with
  | some s => s
  | none =>
    match cur with
    | some c => c
    | none => "-"

/-- The dict literal appended to `st.session_state.trades` at the end of
`execute_trade_record`. -/
def mkTradeRec (ticker : String) (act : Action) (quantity : Int) (price : Rat)
    (dt : Timestamp) (sc cur : Option String) : TradeRec :=
  { datetime := fmtTimestamp dt
    ticker := ticker
    action := act.str
    quantity := quantity
    price := roundTo 4 price
    value := roundTo 2 (price * (quantity : Rat))
    scenario := scenarioLabel sc cur }

/-- `execute_trade_record` from `pages/ChronoTrade.py`: validate, mutate
cash/holdings, append the trade record.  On a rejection (`st.error` + early
`return`) the state is returned untouched together with the error kind. -/
def execute (s : LedgerState) (ticker : String) (act : Action)
    (quantity : Int) (price : Rat) (dt : Timestamp) (scenario : Option String) :
    LedgerState × Option TradeError :=
  if quantity ≤ 0 then (s, some .invalidQuantity)
  else
    let h := (lookupA s.holdings ticker).getD ⟨0, 0⟩
    match act with
    | .buy =>
      let cost := price * (quantity : Rat)
      if s.virtual_cash < cost then (s, some .insufficientFunds)
      else
        let new_qty := h.quantity + quantity
        let new_avg :=
          if 0 < new_qty then
            (h.avg_price * (h.quantity : Rat) + cost) / (new_qty : Rat)
          else 0
        ({ s with
            virtual_cash := s.virtual_cash - cost
            holdings := setA s.holdings ticker ⟨new_qty, new_avg⟩
            trades := s.trades ++
              [mkTradeRec ticker act quantity price dt scenario
                s.currentScenario] },
          none)
    | .sell =>
      if h.quantity < quantity then (s, some .insufficientHoldings)
      else
        let proceeds := price * (quantity : Rat)
        let new_qty := h.quantity - quantity
        let new_avg := if new_qty = 0 then 0 else h.avg_price
        ({ s with
            virtual_cash := s.virtual_cash + proceeds
            holdings := setA s.holdings ticker ⟨new_qty, new_avg⟩
            trades := s.trades ++
              [mkTradeRec ticker act quantity price dt scenario
                s.currentScenario] },
          none)

/-- One call of the trade-execution operation. -/
structure Request where
  ticker : String
  act : Action
  quantity : Int
  price : Rat
  dt : Timestamp
  scenario : Option String

/-- The state after one call (the error, if any, is reported to the user and
does not alter the session state). -/
def step (s : LedgerState) (r : Request) : LedgerState :=
  (execute s r.ticker r.act r.quantity r.price r.dt r.scenario).1

/-- The state after a sequence of calls. -/
def runTrades (s : LedgerState) (rs : List Request) : LedgerState :=
  rs.foldl step s

/-- A fixed timestamp used for concrete evaluations. -/
def T0 : Timestamp := ⟨2020, 1, 2, 10, 30, 0⟩

/-- A second fixed timestamp. -/
def T1 : Timestamp := ⟨2020, 1, 3, 11, 0, 5⟩

/-- The position the code reads for a ticker:
`st.session_state.holdings.get(ticker, {"quantity": 0, "avg_price": 0.0})`. -/
def posOf (s : LedgerState) (ticker : String) : Position :=
  (lookupA s.holdings ticker).getD ⟨0, 0⟩

theorem lookupA_setA_self {α : Type} (l : List (String × α)) (k : String)
    (v : α) : lookupA (setA l k v) k = some v := by
  induction l with
  | nil => simp [setA, lookupA]
  | cons hd tl ih =>
    obtain ⟨k', v'⟩ := hd
    by_cases h : k' = k
    · simp [setA, lookupA, h]
    · simp [setA, lookupA, h, ih]

theorem lookupA_setA_ne {α : Type} (l : List (String × α)) {k k' : String}
    (v : α) (h : k' ≠ k) : lookupA (setA l k v) k' = lookupA l k' := by
  induction l with
  | nil => simp [setA, lookupA, Ne.symm h]
  | cons hd tl ih =>
    obtain ⟨k'', v''⟩ := hd
    by_cases hk : k'' = k
    · subst hk
      simp [setA, lookupA, Ne.symm h]
    · simp only [setA, if_neg hk, lookupA]
      by_cases hk' : k'' = k'
      · simp [hk']
      · simp [hk', ih]

theorem mem_setA {α : Type} {l : List (String × α)} {k : String} {v : α}
    {th : String × α} (h : th ∈ setA l k v) : th = (k, v) ∨ th ∈ l := by
  induction l with
  | nil => simpa [setA] using h
  | cons hd tl ih =>
    obtain ⟨k', v'⟩ := hd
    by_cases hk : k' = k
    · simp only [setA, if_pos hk, List.mem_cons] at h
      rcases h with h | h
      · exact Or.inl h
      · exact Or.inr (List.mem_cons_of_mem _ h)
    · simp only [setA, if_neg hk, List.mem_cons] at h
      rcases h with h | h
      · exact Or.inr (by simp [h])
      · rcases ih h with h' | h'
        · exact Or.inl h'
        · exact Or.inr (List.mem_cons_of_mem _ h')

theorem lookupA_mem {α : Type} {l : List (String × α)} {k : String} {v : α}
    (h : lookupA l k = some v) : (k, v) ∈ l := by
  induction l with
  | nil => simp [lookupA] at h
  | cons hd tl ih =>
    obtain ⟨k', v'⟩ := hd
    by_cases hk : k' = k
    · simp only [lookupA, hk, if_true, eq_self_iff_true, if_pos,
        Option.some.injEq] at h
      simp [hk, h]
    · simp only [lookupA, if_neg hk] at h
      exact List.mem_cons_of_mem _ (ih h)

/-- Any rejected call returns the session state untouched. -/
theorem executeErrorUnchanged (s : LedgerState) (t : String) (a : Action)
    (q : Int) (p : Rat) (dt : Timestamp) (sc : Option String) (e : TradeError)
    (h : (execute s t a q p dt sc).2 = some e) :
    (execute s t a q p dt sc).1 = s := by
  unfold execute at h ⊢
  by_cases hq : q ≤ 0
  · simp [hq]
  · simp only [if_neg hq] at h ⊢
    cases a
    · by_cases hc : s.virtual_cash < p * (q : Rat)
      · simp [hc]
      · simp [hc] at h
    · by_cases hh : ((lookupA s.holdings t).getD ⟨0, 0⟩).quantity < q
      · simp [hh]
      · simp [hh] at h

/-- Closed form of a successful BUY. -/
theorem executeBuyEq (s : LedgerState) (t : String) (q : Int) (p : Rat)
    (dt : Timestamp) (sc : Option String) (hq : ¬ q ≤ 0)
    (hc : ¬ s.virtual_cash < p * (q : Rat)) :
    execute s t .buy q p dt sc =
      ({ s with
          virtual_cash := s.virtual_cash - p * (q : Rat)
          holdings := setA s.holdings t
            ⟨(posOf s t).quantity + q,
              if 0 < (posOf s t).quantity + q then
                ((posOf s t).avg_price * ((posOf s t).quantity : Rat) +
                    p * (q : Rat)) / (((posOf s t).quantity + q : Int) : Rat)
              else 0⟩
          trades := s.trades ++ [mkTradeRec t .buy q p dt sc
            s.currentScenario] },
        none) := by
  unfold execute posOf
  simp [hq, hc]

/-- Closed form of a successful SELL. -/
theorem executeSellEq (s : LedgerState) (t : String) (q : Int) (p : Rat)
    (dt : Timestamp) (sc : Option String) (hq : ¬ q ≤ 0)
    (hh : ¬ (posOf s t).quantity < q) :
    execute s t .sell q p dt sc =
      ({ s with
          virtual_cash := s.virtual_cash + p * (q : Rat)
          holdings := setA s.holdings t
            ⟨(posOf s t).quantity - q,
              if (posOf s t).quantity - q = 0 then 0
              else (posOf s t).avg_price⟩
          trades := s.trades ++ [mkTradeRec t .sell q p dt sc
            s.currentScenario] },
        none) := by
  unfold execute posOf
  unfold posOf at hh
  simp [hq, hh]

theorem posOf_nonneg (s : LedgerState) (t : String)
    (hh : ∀ th ∈ s.holdings, 0 ≤ th.2.quantity) : 0 ≤ (posOf s t).quantity := by
  unfold posOf
  cases hlk : lookupA s.holdings t with
  | none => simp
  | some v => simpa using hh (t, v) (lookupA_mem hlk)

/-- One call preserves cash and quantity non-negativity, provided the price
passed in is non-negative. -/
theorem stepNonneg (s : LedgerState) (r : Request) (hp : 0 ≤ r.price)
    (hc : 0 ≤ s.virtual_cash) (hh : ∀ th ∈ s.holdings, 0 ≤ th.2.quantity) :
    0 ≤ (step s r).virtual_cash ∧
      ∀ th ∈ (step s r).holdings, 0 ≤ th.2.quantity := by
  unfold step
  by_cases hq : r.quantity ≤ 0
  · unfold execute
    rw [if_pos hq]
    exact ⟨hc, hh⟩
  · cases ha : r.act
    · by_cases hcost : s.virtual_cash < r.price * (r.quantity : Rat)
      · unfold execute
        rw [if_neg hq]
        simp only []
        rw [if_pos hcost]
        exact ⟨hc, hh⟩
      · rw [executeBuyEq s r.ticker r.quantity r.price r.dt r.scenario hq hcost]
        refine ⟨by simpa using not_lt.mp hcost, ?_⟩
        intro th hmem
        rcases mem_setA hmem with h | h
        · have h1 : 0 ≤ (posOf s r.ticker).quantity := posOf_nonneg s _ hh
          have h2 : 0 < r.quantity := lt_of_not_le hq
          subst h
          simpa using by omega
        · exact hh th h
    · by_cases hsell : (posOf s r.ticker).quantity < r.quantity
      · unfold execute
        unfold posOf at hsell
        rw [if_neg hq]
        simp only []
        rw [if_pos hsell]
        exact ⟨hc, hh⟩
      · rw [executeSellEq s r.ticker r.quantity r.price r.dt r.scenario hq
          hsell]
        constructor
        · have hq' : (0 : Rat) ≤ (r.quantity : Rat) := by
            have := lt_of_not_le hq
            exact_mod_cast le_of_lt this
          have : 0 ≤ r.price * (r.quantity : Rat) := mul_nonneg hp hq'
          simpa using add_nonneg hc this
        · intro th hmem
          rcases mem_setA hmem with h | h
          · have := not_lt.mp hsell
            subst h
            simpa using by omega
          · exact hh th h

/-- Non-negativity is preserved along any run with non-negative prices. -/
theorem runTradesNonneg (rs : List Request) :
    ∀ s : LedgerState, (∀ r ∈ rs, 0 ≤ r.price) → 0 ≤ s.virtual_cash →
      (∀ th ∈ s.holdings, 0 ≤ th.2.quantity) →
      0 ≤ (runTrades s rs).virtual_cash ∧
        ∀ th ∈ (runTrades s rs).holdings, 0 ≤ th.2.quantity := by
  induction rs with
  | nil =>
    intro s _ hc hh
    exact ⟨hc, hh⟩
  | cons r rs ih =>
    intro s hp hc hh
    have hstep := stepNonneg s r (hp r (List.mem_cons_self r rs)) hc hh
    have : runTrades s (r :: rs) = runTrades (step s r) rs := rfl
    rw [this]
    exact ih (step s r) (fun r' h' => hp r' (List.mem_cons_of_mem r h'))
      hstep.1 hstep.2

/-- The full-portfolio valuation loop from `pages/ChronoTrade.py`: skip
zero/negative quantities, skip tickers with no last-known price, otherwise
accumulate `quantity × last_known_price`. -/
def holdingsTotal (s : LedgerState) : Rat :=
  s.holdings.foldl
    (fun (acc : Rat) (th : String × Position) =>
      if th.2.quantity ≤ 0 then acc
      else
        match lookupA s.prices th.1 with
        | none => acc
        | some px => acc + (th.2.quantity : Rat) * px)
    (0 : Rat)

/-- `port_val = st.session_state.virtual_cash + holdings_total`. -/
def portfolioValue (s : LedgerState) : Rat :=
  s.virtual_cash + holdingsTotal s

/-- The contribution of one holdings entry to the valuation loop, as a
standalone function. -/
def valueContribution (prices : Prices) (th : String × Position) : Rat :=
  if th.2.quantity ≤ 0 then 0
  else
    match lookupA prices th.1 with
    | none => 0
    | some px => (th.2.quantity : Rat) * px

/-- Modelled from the spec: `value_position(ticker)` =
`(last_known_price.get(ticker) ?? avg_price) × quantity`, 0 if the ticker is
absent or the quantity is 0.  This operation appears only in the
specification; the code's valuation loop is `holdingsTotal`. -/
def specValuePosition (s : LedgerState) (t : String) : Rat :=
  match lookupA s.holdings t with
  | none => 0
  | some h =>
    if h.quantity = 0 then 0
    else ((lookupA s.prices t).getD h.avg_price) * (h.quantity : Rat)

/-- Modelled from the spec: `total_portfolio_value()` =
`cash + Σ value_position(t) for t in holdings where quantity > 0`. -/
def specTotalPortfolioValue (s : LedgerState) : Rat :=
  s.virtual_cash +
    ((s.holdings.filter (fun th => 0 < th.2.quantity)).map
      (fun th => specValuePosition s th.1)).sum

/-- The `Unrealized P&L` cell of the holdings table in
`pages/ChronoTrade.py`:
`round((prices.get(t, current_price if t == ticker else 0.0) - avg) * qty, 2)`.
-/
def pnlCell (prices : Prices) (curTicker : String) (curPrice : Rat)
    (t : String) (h : Position) : Rat :=
  roundTo 2
    (((lookupA prices t).getD (if t = curTicker then curPrice else 0) -
        h.avg_price) * (h.quantity : Rat))

/-- The on-screen trades table: `st.dataframe(log_df[::-1])`. -/
def tradesDisplay (s : LedgerState) : List TradeRec :=
  s.trades.reverse

/-- The rows of the CSV download: `log_df.to_csv(index=False)` over the
un-reversed `log_df`. -/
def tradesCSV (s : LedgerState) : List TradeRec :=
  s.trades

/-- One OHLCV bar; only the close price is consumed by the simulator. -/
structure Bar where
  close : Rat
deriving DecidableEq, Repr

/-- The scenario-replay surface state: `chrono_ticker_data`, `sim_idx`,
`current_ticker`, `current_scenario` and the shared `prices` cache. -/
structure SimState where
  chrono_ticker_data : List Bar
  sim_idx : Option Nat
  current_ticker : Option String
  current_scenario : Option String
  prices : Prices
deriving DecidableEq, Repr

/-- The "Load Scenario Data" button handler of `pages/ChronoTrade.py`: on an
empty provider result show `st.error` (the Bool result) and leave everything
as it was, otherwise replace the series, set the cursor to the last index,
record ticker/scenario and cache the last close. -/
def loadScenario (st : SimState) (ticker scenarioName : String)
    (data : List Bar) : SimState × Bool :=
  if data.isEmpty then (st, true)
  else
    ({ chrono_ticker_data := data
       sim_idx := some (data.length - 1)
       current_ticker := some ticker
       current_scenario := some scenarioName
       prices :=
         match data.getLast? with
         | some b => setA st.prices ticker b.close
         | none => st.prices },
      false)

/-- C1 (counterexample): the invariant as claimed fails, because the
operation never validates the price.  Buying 1 share at price 0 and then
selling it at price -200000 is accepted by every precondition check and
leaves the cash balance strictly negative. -/
theorem negative_price_sell_drives_cash_negative :
    (runTrades initState
      [⟨"X", .buy, 1, 0, T0, none⟩, ⟨"X", .sell, 1, -200000, T0, none⟩]
      ).virtual_cash < 0 := by
  norm_num [runTrades, step, execute, initState, lookupA, setA, List.foldl]

/-- C1 (amended): for every sequence of calls to the trade-execution
operation starting from the initial account in which every supplied price is
non-negative, after every call the cash balance is ≥ 0 and every position's
quantity is ≥ 0. -/
theorem ledger_invariants_nonneg (rs : List Request)
    (hp : ∀ r ∈ rs, 0 ≤ r.price) :
    0 ≤ (runTrades initState rs).virtual_cash ∧
      ∀ th ∈ (runTrades initState rs).holdings, 0 ≤ th.2.quantity :=
  runTradesNonneg rs initState hp (by norm_num [initState])
    (by simp [initState])

/-- C1 witness: the amended invariant evaluated on a concrete one-buy run. -/
theorem ledger_invariants_nonneg_wit :
    0 ≤ (runTrades initState
        [⟨"TCS", .buy, 10, 3850, T0, none⟩]).virtual_cash ∧
      ∀ th ∈ (runTrades initState
        [⟨"TCS", .buy, 10, 3850, T0, none⟩]).holdings, 0 ≤ th.2.quantity :=
  ledger_invariants_nonneg [⟨"TCS", .buy, 10, 3850, T0, none⟩]
    (by
      intro r hr
      simp only [List.mem_singleton] at hr
      subst hr
      norm_num)

/-- C4 (counterexample): a call with positive quantity and a non-positive
price is not rejected with `InvalidPrice` — it is not rejected at all: there
is no price validation in `execute_trade_record`. -/
theorem no_invalid_price_check :
    (0 : Int) < 1 ∧ (-5 : Rat) ≤ 0 ∧
      (execute initState "X" .buy 1 (-5) T0 none).2 = none := by
  refine ⟨by norm_num, by norm_num, ?_⟩
  norm_num [execute, initState, lookupA]

/-- C4 (amended): the checks actually performed, in order with first failure
winning: non-positive quantity fails with `InvalidQuantity`; otherwise a BUY
whose notional exceeds cash fails with `InsufficientFunds`; otherwise a SELL
whose quantity exceeds the held quantity fails with `InsufficientHoldings`;
the price is never validated, so no call ever yields `InvalidPrice`. -/
theorem validation_order_actual (s : LedgerState) (t : String) (q : Int)
    (p : Rat) (dt : Timestamp) (sc : Option String) :
    (∀ a : Action, q ≤ 0 →
      execute s t a q p dt sc = (s, some .invalidQuantity)) ∧
    (0 < q → s.virtual_cash < p * (q : Rat) →
      execute s t .buy q p dt sc = (s, some .insufficientFunds)) ∧
    (0 < q → ¬ s.virtual_cash < p * (q : Rat) →
      (execute s t .buy q p dt sc).2 = none) ∧
    (0 < q → (posOf s t).quantity < q →
      execute s t .sell q p dt sc = (s, some .insufficientHoldings)) ∧
    (0 < q → ¬ (posOf s t).quantity < q →
      (execute s t .sell q p dt sc).2 = none) ∧
    (∀ a : Action, (execute s t a q p dt sc).2 ≠ some .invalidPrice) := by
  refine ⟨?_, ?_, ?_, ?_, ?_, ?_⟩
  · intro a hq
    unfold execute
    rw [if_pos hq]
  · intro hq hcost
    unfold execute
    rw [if_neg (not_le.mpr hq)]
    simp only []
    rw [if_pos hcost]
  · intro hq hcost
    rw [executeBuyEq s t q p dt sc (not_le.mpr hq) hcost]
  · intro hq hsell
    unfold execute
    rw [if_neg (not_le.mpr hq)]
    unfold posOf at hsell
    simp only []
    rw [if_pos hsell]
  · intro hq hsell
    rw [executeSellEq s t q p dt sc (not_le.mpr hq) hsell]
  · intro a
    by_cases hq : q ≤ 0
    · unfold execute
      rw [if_pos hq]
      simp
    · cases a
      · by_cases hcost : s.virtual_cash < p * (q : Rat)
        · unfold execute
          rw [if_neg hq]
          simp only []
          rw [if_pos hcost]
          simp
        · rw [executeBuyEq s t q p dt sc hq hcost]
          simp
      · by_cases hsell : (posOf s t).quantity < q
        · unfold execute
          rw [if_neg hq]
          unfold posOf at hsell
          simp only []
          rw [if_pos hsell]
          simp
        · rw [executeSellEq s t q p dt sc hq hsell]
          simp

/-- C4 witness: the first check at a concrete rejected call. -/
theorem validation_order_actual_wit :
    execute initState "X" .buy 0 5 T0 none =
      (initState, some .invalidQuantity) :=
  (validation_order_actual initState "X" 0 5 T0 none).1 Action.buy
    (by norm_num)

/-- C5: a call that is rejected by any validation check leaves the whole
session state — cash, every position, and the trade log — unchanged, and
appends no trade record. -/
theorem validation_failure_no_mutation (s : LedgerState) (t : String)
    (a : Action) (q : Int) (p : Rat) (dt : Timestamp) (sc : Option String)
    (e : TradeError) (h : (execute s t a q p dt sc).2 = some e) :
    (execute s t a q p dt sc).1 = s ∧
      (execute s t a q p dt sc).1.trades = s.trades := by
  have h1 := executeErrorUnchanged s t a q p dt sc e h
  exact ⟨h1, by rw [h1]⟩

/-- C5 witness: a concrete rejected SELL (nothing held) changes nothing. -/
theorem validation_failure_no_mutation_wit :
    (execute initState "X" .sell 1 5 T0 none).1 = initState ∧
      (execute initState "X" .sell 1 5 T0 none).1.trades =
        initState.trades :=
  validation_failure_no_mutation initState "X" .sell 1 5 T0 none
    .insufficientHoldings (by norm_num [execute, initState, lookupA])

/-- C2: a successful BUY of quantity q at price p over a prior position
(old_qty, old_avg) blends the cost basis to
`(old_avg*old_qty + p*q)/(old_qty + q)`, adds q to the quantity and subtracts
exactly `p*q` from cash; in particular two buys `q1@p1` then `q2@p2` from an
empty position yield quantity `q1+q2` and average
`(q1*p1 + q2*p2)/(q1+q2)`. -/
theorem buy_weighted_average :
    (∀ (s : LedgerState) (t : String) (oq q : Int) (oa p : Rat)
        (dt : Timestamp) (sc : Option String),
      posOf s t = ⟨oq, oa⟩ → 0 ≤ oq → 0 < q →
      ¬ s.virtual_cash < p * (q : Rat) →
      (execute s t .buy q p dt sc).2 = none ∧
        lookupA (execute s t .buy q p dt sc).1.holdings t =
          some ⟨oq + q, (oa * (oq : Rat) + p * (q : Rat)) /
            ((oq : Rat) + (q : Rat))⟩ ∧
        (execute s t .buy q p dt sc).1.virtual_cash =
          s.virtual_cash - p * (q : Rat)) ∧
    (∀ (s : LedgerState) (t : String) (q1 q2 : Int) (p1 p2 : Rat)
        (dt1 dt2 : Timestamp) (sc1 sc2 : Option String),
      lookupA s.holdings t = none → 0 < q1 → 0 < q2 →
      ¬ s.virtual_cash < p1 * (q1 : Rat) →
      ¬ s.virtual_cash - p1 * (q1 : Rat) < p2 * (q2 : Rat) →
      lookupA (execute (execute s t .buy q1 p1 dt1 sc1).1 t .buy q2 p2 dt2
          sc2).1.holdings t =
        some ⟨q1 + q2, ((q1 : Rat) * p1 + (q2 : Rat) * p2) /
          ((q1 : Rat) + (q2 : Rat))⟩) := by
  have hA : ∀ (s : LedgerState) (t : String) (oq q : Int) (oa p : Rat)
      (dt : Timestamp) (sc : Option String),
      posOf s t = ⟨oq, oa⟩ → 0 ≤ oq → 0 < q →
      ¬ s.virtual_cash < p * (q : Rat) →
      (execute s t .buy q p dt sc).2 = none ∧
        lookupA (execute s t .buy q p dt sc).1.holdings t =
          some ⟨oq + q, (oa * (oq : Rat) + p * (q : Rat)) /
            ((oq : Rat) + (q : Rat))⟩ ∧
        (execute s t .buy q p dt sc).1.virtual_cash =
          s.virtual_cash - p * (q : Rat) := by
    intro s t oq q oa p dt sc hpos hoq hq hc
    have hq' : ¬ q ≤ 0 := not_le.mpr hq
    have hcond : (0 : Int) < oq + q := by omega
    refine ⟨?_, ?_, ?_⟩
    · rw [executeBuyEq s t q p dt sc hq' hc]
    · have hl : lookupA (execute s t .buy q p dt sc).1.holdings t =
          some ⟨oq + q,
            if 0 < oq + q then (oa * (oq : Rat) + p * (q : Rat)) /
              ((oq + q : Int) : Rat) else 0⟩ := by
        rw [executeBuyEq s t q p dt sc hq' hc]
        simp only [hpos]
        exact lookupA_setA_self _ _ _
      rw [hl, if_pos hcond]
      have hcast : ((oq + q : Int) : Rat) = (oq : Rat) + (q : Rat) := by
        push_cast
        ring
      rw [hcast]
    · rw [executeBuyEq s t q p dt sc hq' hc]
  refine ⟨hA, ?_⟩
  intro s t q1 q2 p1 p2 dt1 dt2 sc1 sc2 hnone hq1 hq2 hc1 hc2
  have hpos0 : posOf s t = ⟨0, 0⟩ := by simp [posOf, hnone]
  obtain ⟨he1, hl1, hcash1⟩ :=
    hA s t 0 q1 0 p1 dt1 sc1 hpos0 le_rfl hq1 hc1
  have hpos1 : posOf (execute s t .buy q1 p1 dt1 sc1).1 t =
      ⟨0 + q1, (0 * ((0 : Int) : Rat) + p1 * (q1 : Rat)) /
        (((0 : Int) : Rat) + (q1 : Rat))⟩ := by
    simp only [posOf, hl1, Option.getD_some]
  have hc2' : ¬ (execute s t .buy q1 p1 dt1 sc1).1.virtual_cash <
      p2 * (q2 : Rat) := by
    rw [hcash1]
    exact hc2
  obtain ⟨he2, hl2, hcash2⟩ :=
    hA (execute s t .buy q1 p1 dt1 sc1).1 t (0 + q1) q2
      ((0 * ((0 : Int) : Rat) + p1 * (q1 : Rat)) /
        (((0 : Int) : Rat) + (q1 : Rat))) p2 dt2 sc2 hpos1 (by omega) hq2 hc2'
  rw [hl2]
  simp only [Option.some.injEq, Position.mk.injEq]
  have hq1r : ((q1 : Rat)) ≠ 0 := by
    have : (0 : Rat) < (q1 : Rat) := by exact_mod_cast hq1
    exact ne_of_gt this
  constructor
  · omega
  · push_cast
    rw [zero_mul, zero_add, zero_add, div_mul_cancel₀ _ hq1r]
    ring

/-- C2 witness: buying 10 at 3850 from the empty initial account. -/
theorem buy_weighted_average_wit :
    (execute initState "TCS" .buy 10 3850 T0 none).2 = none ∧
      lookupA (execute initState "TCS" .buy 10 3850 T0 none).1.holdings
          "TCS" =
        some ⟨0 + 10, (0 * ((0 : Int) : Rat) + 3850 * ((10 : Int) : Rat)) /
          (((0 : Int) : Rat) + ((10 : Int) : Rat))⟩ ∧
      (execute initState "TCS" .buy 10 3850 T0 none).1.virtual_cash =
        initState.virtual_cash - 3850 * ((10 : Int) : Rat) :=
  buy_weighted_average.1 initState "TCS" 0 10 0 3850 T0 none
    (by simp [posOf, initState, lookupA]) le_rfl (by norm_num)
    (by norm_num [initState])

/-- C3: a successful SELL of quantity q (0 < q ≤ held) at price p decreases
the quantity by q, increases cash by exactly `p*q`, keeps the average price
when the remaining quantity is positive and resets it to 0 when the
remaining quantity is exactly 0. -/
theorem sell_effects (s : LedgerState) (t : String) (oq q : Int) (oa p : Rat)
    (dt : Timestamp) (sc : Option String) (hpos : posOf s t = ⟨oq, oa⟩)
    (hq : 0 < q) (hle : q ≤ oq) :
    (execute s t .sell q p dt sc).2 = none ∧
      lookupA (execute s t .sell q p dt sc).1.holdings t =
        some ⟨oq - q, if oq - q = 0 then 0 else oa⟩ ∧
      (execute s t .sell q p dt sc).1.virtual_cash =
        s.virtual_cash + p * (q : Rat) := by
  have hq' : ¬ q ≤ 0 := not_le.mpr hq
  have hsell : ¬ (posOf s t).quantity < q := by
    rw [hpos]
    exact not_lt.mpr hle
  refine ⟨?_, ?_, ?_⟩
  · rw [executeSellEq s t q p dt sc hq' hsell]
  · rw [executeSellEq s t q p dt sc hq' hsell]
    simp only [hpos]
    exact lookupA_setA_self _ _ _
  · rw [executeSellEq s t q p dt sc hq' hsell]

/-- C3 witness: selling 5 of the 10 shares bought at 3850 keeps the average
price; the position drops to 5. -/
theorem sell_effects_wit :
    (execute (execute initState "TCS" .buy 10 3850 T0 none).1 "TCS" .sell 5
        3900 T1 none).2 = none ∧
      lookupA (execute (execute initState "TCS" .buy 10 3850 T0 none).1
          "TCS" .sell 5 3900 T1 none).1.holdings "TCS" =
        some ⟨10 - 5, if (10 : Int) - 5 = 0 then 0 else 3850⟩ ∧
      (execute (execute initState "TCS" .buy 10 3850 T0 none).1 "TCS" .sell 5
          3900 T1 none).1.virtual_cash =
        (execute initState "TCS" .buy 10 3850 T0 none).1.virtual_cash +
          3900 * ((5 : Int) : Rat) :=
  sell_effects (execute initState "TCS" .buy 10 3850 T0 none).1 "TCS" 10 5
    3850 3900 T1 none
    (by norm_num [posOf, execute, initState, lookupA, setA]) (by norm_num)
    (by norm_num)

/-- The valuation loop is the sum of the per-entry contributions. -/
theorem holdingsTotal_eq_sum (s : LedgerState) :
    holdingsTotal s = (s.holdings.map (valueContribution s.prices)).sum := by
  have aux : ∀ (l : Holdings) (a : Rat),
      l.foldl
        (fun (acc : Rat) (th : String × Position) =>
          if th.2.quantity ≤ 0 then acc
          else
            match lookupA s.prices th.1 with
            | none => acc
            | some px => acc + (th.2.quantity : Rat) * px) a
      = a + (l.map (valueContribution s.prices)).sum := by
    intro l
    induction l with
    | nil =>
      intro a
      simp
    | cons th tl ih =>
      intro a
      simp only [List.foldl_cons, List.map_cons, List.sum_cons]
      rw [ih]
      have hstep : (if th.2.quantity ≤ 0 then a
          else
            match lookupA s.prices th.1 with
            | none => a
            | some px => a + (th.2.quantity : Rat) * px)
          = a + valueContribution s.prices th := by
        unfold valueContribution
        by_cases hq : th.2.quantity ≤ 0
        · simp [hq]
        · cases hlk : lookupA s.prices th.1 <;> simp [hq, hlk]
      rw [hstep]
      ring
  unfold holdingsTotal
  rw [aux]
  ring

/-- C6 (counterexample): after buying 1 share of a ticker that has no
last-known price, the code's portfolio value differs from the spec's
`cash + Σ (last_known ?? avg_price) × qty` formula: the code skips the
unpriced position instead of falling back to its average price. -/
theorem unpriced_position_not_valued_at_avg :
    portfolioValue (execute initState "X" .buy 1 10 T0 none).1 = 99990 ∧
      specTotalPortfolioValue (execute initState "X" .buy 1 10 T0 none).1 =
        100000 ∧
      portfolioValue (execute initState "X" .buy 1 10 T0 none).1 ≠
        specTotalPortfolioValue (execute initState "X" .buy 1 10 T0 none).1
    := by
  refine ⟨?_, ?_, ?_⟩ <;>
    norm_num [portfolioValue, specTotalPortfolioValue, specValuePosition,
      holdingsTotal, execute, initState, lookupA, setA, List.filter,
      List.foldl]

/-- C6 (amended): the total portfolio value equals cash plus the sum over
holdings entries of their contribution, where an entry with quantity > 0
contributes `quantity × last_known_price` when a last-known price exists and
contributes 0 (is skipped) when no price has been observed for its ticker —
not `avg_price × quantity`. -/
theorem portfolio_value_skips_unpriced :
    (∀ s : LedgerState, portfolioValue s =
      s.virtual_cash + (s.holdings.map (valueContribution s.prices)).sum) ∧
    (∀ (prices : Prices) (th : String × Position),
      lookupA prices th.1 = none → valueContribution prices th = 0) ∧
    (∀ (prices : Prices) (th : String × Position) (px : Rat),
      lookupA prices th.1 = some px → 0 < th.2.quantity →
      valueContribution prices th = (th.2.quantity : Rat) * px) := by
  refine ⟨?_, ?_, ?_⟩
  · intro s
    unfold portfolioValue
    rw [holdingsTotal_eq_sum]
  · intro prices th hnone
    unfold valueContribution
    by_cases hq : th.2.quantity ≤ 0 <;> simp [hq, hnone]
  · intro prices th px hpx hpos
    unfold valueContribution
    simp [hpx, not_le.mpr hpos]

/-- C6 witness: a concrete unpriced entry contributes 0. -/
theorem portfolio_value_skips_unpriced_wit :
    valueContribution [] ("X", ⟨1, 10⟩) = 0 :=
  portfolio_value_skips_unpriced.2.1 [] ("X", ⟨1, 10⟩) rfl

/-- C7: in the holdings table (rendered after the line that stores the
current price into the last-known-price cache), the Unrealized P&L cell is
`round((reference − avg_price) × quantity, 2)` with the reference price being
the last known price of the row's ticker and falling back to 0 when that
ticker has never been priced; a never-priced position therefore shows
`round(−avg_price × quantity, 2)`. -/
theorem unrealized_pnl_reference_price :
    (∀ (prices : Prices) (curT : String) (curP : Rat) (t : String)
        (h : Position),
      pnlCell (setA prices curT curP) curT curP t h =
        roundTo 2 (((lookupA (setA prices curT curP) t).getD 0 -
          h.avg_price) * (h.quantity : Rat))) ∧
    (∀ (prices : Prices) (curT : String) (curP : Rat) (t : String)
        (h : Position),
      lookupA (setA prices curT curP) t = none →
      pnlCell (setA prices curT curP) curT curP t h =
        roundTo 2 (-(h.avg_price * (h.quantity : Rat)))) := by
  have hA : ∀ (prices : Prices) (curT : String) (curP : Rat) (t : String)
      (h : Position),
      pnlCell (setA prices curT curP) curT curP t h =
        roundTo 2 (((lookupA (setA prices curT curP) t).getD 0 -
          h.avg_price) * (h.quantity : Rat)) := by
    intro prices curT curP t h
    unfold pnlCell
    by_cases ht : t = curT
    · subst ht
      rw [lookupA_setA_self]
      simp
    · simp [ht]
  refine ⟨hA, ?_⟩
  intro prices curT curP t h hnone
  rw [hA prices curT curP t h, hnone]
  simp only [Option.getD_none]
  congr 1
  ring

/-- C7 witness: a never-priced row at concrete values. -/
theorem unrealized_pnl_reference_price_wit :
    pnlCell (setA [] "A" 5) "A" 5 "B" ⟨2, 7⟩ =
      roundTo 2 (-(7 * ((2 : Int) : Rat))) :=
  unrealized_pnl_reference_price.2 [] "A" 5 "B" ⟨2, 7⟩
    (by simp [setA, lookupA])

/-- C8 (counterexample): after two successful buys the CSV download rows are
in internal (oldest-first) order, not most-recent-first: the code reverses
only the on-screen dataframe (`log_df[::-1]`) and serializes the un-reversed
`log_df`. -/
theorem csv_export_not_reversed :
    tradesCSV (execute (execute initState "A" .buy 1 10 T0 none).1 "A" .buy 2
        10 T1 none).1 ≠
      ((execute (execute initState "A" .buy 1 10 T0 none).1 "A" .buy 2 10 T1
        none).1).trades.reverse := by
  intro hcontra
  have h2 := congrArg (List.map TradeRec.quantity) hcontra
  norm_num [tradesCSV, execute, initState, lookupA, setA, mkTradeRec] at h2

/-- C8 (amended): the trade log is kept oldest-first internally; every
successful call appends exactly one record, built with datetime
`YYYY-MM-DD HH:MM:SS`, ticker, action string, integer quantity, price rounded
to 4 decimals, value rounded to 2 decimals and a scenario label; the
on-screen rendering presents the log most-recent-first, while the CSV export
presents it oldest-first (in internal order). -/
theorem trade_log_order_and_fields (s : LedgerState) (t : String) (a : Action)
    (q : Int) (p : Rat) (dt : Timestamp) (sc : Option String)
    (hsucc : (execute s t a q p dt sc).2 = none) :
    (execute s t a q p dt sc).1.trades =
      s.trades ++ [mkTradeRec t a q p dt sc s.currentScenario] ∧
    tradesDisplay (execute s t a q p dt sc).1 =
      mkTradeRec t a q p dt sc s.currentScenario :: tradesDisplay s ∧
    tradesCSV (execute s t a q p dt sc).1 =
      tradesCSV s ++ [mkTradeRec t a q p dt sc s.currentScenario] ∧
    (mkTradeRec t a q p dt sc s.currentScenario).datetime = fmtTimestamp dt ∧
    (mkTradeRec t a q p dt sc s.currentScenario).price = roundTo 4 p ∧
    (mkTradeRec t a q p dt sc s.currentScenario).value =
      roundTo 2 (p * (q : Rat)) := by
  have htr : (execute s t a q p dt sc).1.trades =
      s.trades ++ [mkTradeRec t a q p dt sc s.currentScenario] := by
    by_cases hq : q ≤ 0
    · unfold execute at hsucc
      simp [hq] at hsucc
    · cases a
      · by_cases hcost : s.virtual_cash < p * (q : Rat)
        · unfold execute at hsucc
          simp [hq, hcost] at hsucc
        · rw [executeBuyEq s t q p dt sc hq hcost]
      · by_cases hsell : (posOf s t).quantity < q
        · unfold execute at hsucc
          unfold posOf at hsell
          simp [hq, hsell] at hsucc
        · rw [executeSellEq s t q p dt sc hq hsell]
  refine ⟨htr, ?_, ?_, rfl, rfl, rfl⟩
  · unfold tradesDisplay
    rw [htr, List.reverse_append]
    simp
  · unfold tradesCSV
    exact htr

/-- C8 witness: the trade-log conjunction evaluated on a concrete buy. -/
theorem trade_log_order_and_fields_wit :
    (execute initState "TCS" .buy 10 3850 T0 none).1.trades =
      initState.trades ++
        [mkTradeRec "TCS" .buy 10 3850 T0 none initState.currentScenario] ∧
    tradesDisplay (execute initState "TCS" .buy 10 3850 T0 none).1 =
      mkTradeRec "TCS" .buy 10 3850 T0 none initState.currentScenario ::
        tradesDisplay initState ∧
    tradesCSV (execute initState "TCS" .buy 10 3850 T0 none).1 =
      tradesCSV initState ++
        [mkTradeRec "TCS" .buy 10 3850 T0 none initState.currentScenario] ∧
    (mkTradeRec "TCS" .buy 10 3850 T0 none
      initState.currentScenario).datetime = fmtTimestamp T0 ∧
    (mkTradeRec "TCS" .buy 10 3850 T0 none
      initState.currentScenario).price = roundTo 4 3850 ∧
    (mkTradeRec "TCS" .buy 10 3850 T0 none
      initState.currentScenario).value = roundTo 2 (3850 * ((10 : Int) : Rat))
    :=
  trade_log_order_and_fields initState "TCS" .buy 10 3850 T0 none
    (by norm_num [execute, initState, lookupA])

/-- C9: loading a scenario with an empty provider result leaves the surface
exactly in its prior state and reports a no-data notice; a non-empty series
replaces the previous one, the cursor is set to the last index, and
ticker/scenario are recorded without a notice. -/
theorem load_scenario_empty_preserves_state (st : SimState)
    (ticker scenarioName : String) (data : List Bar) :
    (data = [] → loadScenario st ticker scenarioName data = (st, true)) ∧
    (data ≠ [] →
      (loadScenario st ticker scenarioName data).1.chrono_ticker_data =
        data ∧
      (loadScenario st ticker scenarioName data).1.sim_idx =
        some (data.length - 1) ∧
      (loadScenario st ticker scenarioName data).1.current_ticker =
        some ticker ∧
      (loadScenario st ticker scenarioName data).1.current_scenario =
        some scenarioName ∧
      (loadScenario st ticker scenarioName data).2 = false) := by
  constructor
  · intro h
    subst h
    simp [loadScenario]
  · intro h
    have hne : data.isEmpty = false := by
      simpa [List.isEmpty_iff] using h
    simp [loadScenario, hne]

/-- C9 witness: the empty-provider case at a concrete prior state. -/
theorem load_scenario_empty_preserves_state_wit :
    loadScenario ⟨[⟨42⟩], some 0, some "OLD", some "OldScen", []⟩ "T" "S" [] =
      (⟨[⟨42⟩], some 0, some "OLD", some "OldScen", []⟩, true) :=
  (load_scenario_empty_preserves_state
    ⟨[⟨42⟩], some 0, some "OLD", some "OldScen", []⟩ "T" "S" []).1 rfl

/-- C10: for a ticker not previously held, with 0 < q, 0 < p and
`p*q ≤ cash`, a BUY of q at p followed by a SELL of q at p restores cash
exactly, leaves the ticker present in the holdings map with quantity 0 and
avg_price 0, and appends exactly two records to the trade log. -/
theorem buy_sell_round_trip (s : LedgerState) (t : String) (q : Int)
    (p : Rat) (dt1 dt2 : Timestamp) (sc1 sc2 : Option String)
    (hnone : lookupA s.holdings t = none) (hq : 0 < q) (hp : 0 < p)
    (hcash : p * (q : Rat) ≤ s.virtual_cash) :
    (execute s t .buy q p dt1 sc1).2 = none ∧
    (execute (execute s t .buy q p dt1 sc1).1 t .sell q p dt2 sc2).2 =
      none ∧
    (execute (execute s t .buy q p dt1 sc1).1 t .sell q p dt2
        sc2).1.virtual_cash = s.virtual_cash ∧
    lookupA (execute (execute s t .buy q p dt1 sc1).1 t .sell q p dt2
        sc2).1.holdings t = some ⟨0, 0⟩ ∧
    (execute (execute s t .buy q p dt1 sc1).1 t .sell q p dt2
        sc2).1.trades.length = s.trades.length + 2 := by
  have hq' : ¬ q ≤ 0 := not_le.mpr hq
  have hc : ¬ s.virtual_cash < p * (q : Rat) := not_lt.mpr hcash
  have hbuy := executeBuyEq s t q p dt1 sc1 hq' hc
  have hpos0 : posOf s t = ⟨0, 0⟩ := by simp [posOf, hnone]
  have hl1 : lookupA (execute s t .buy q p dt1 sc1).1.holdings t =
      some ⟨(posOf s t).quantity + q,
        if 0 < (posOf s t).quantity + q then
          ((posOf s t).avg_price * ((posOf s t).quantity : Rat) +
            p * (q : Rat)) / (((posOf s t).quantity + q : Int) : Rat)
        else 0⟩ := by
    rw [hbuy]
    exact lookupA_setA_self _ _ _
  have hpos1 : posOf (execute s t .buy q p dt1 sc1).1 t =
      ⟨(posOf s t).quantity + q,
        if 0 < (posOf s t).quantity + q then
          ((posOf s t).avg_price * ((posOf s t).quantity : Rat) +
            p * (q : Rat)) / (((posOf s t).quantity + q : Int) : Rat)
        else 0⟩ := by
    simp only [posOf, hl1, Option.getD_some]
  have hq1 : (posOf (execute s t .buy q p dt1 sc1).1 t).quantity = q := by
    rw [hpos1, hpos0]
    simp
  have hsell : ¬ (posOf (execute s t .buy q p dt1 sc1).1 t).quantity < q := by
    rw [hq1]
    exact lt_irrefl q
  have hsellEq := executeSellEq (execute s t .buy q p dt1 sc1).1 t q p dt2
    sc2 hq' hsell
  refine ⟨?_, ?_, ?_, ?_, ?_⟩
  · rw [hbuy]
  · rw [hsellEq]
  · rw [hsellEq]
    simp only []
    rw [hbuy]
    simp only []
    ring
  · rw [hsellEq]
    have hfin : lookupA (setA (execute s t .buy q p dt1 sc1).1.holdings t
        ⟨(posOf (execute s t .buy q p dt1 sc1).1 t).quantity - q,
          if (posOf (execute s t .buy q p dt1 sc1).1 t).quantity - q = 0
          then 0
          else (posOf (execute s t .buy q p dt1 sc1).1 t).avg_price⟩) t =
        some ⟨(posOf (execute s t .buy q p dt1 sc1).1 t).quantity - q,
          if (posOf (execute s t .buy q p dt1 sc1).1 t).quantity - q = 0
          then 0
          else (posOf (execute s t .buy q p dt1 sc1).1 t).avg_price⟩ :=
      lookupA_setA_self _ _ _
    rw [hfin, hq1]
    simp
  · rw [hsellEq]
    simp only [List.length_append]
    rw [hbuy]
    simp

/-- C10 witness: a concrete round trip of 2 shares at price 50. -/
theorem buy_sell_round_trip_wit :
    (execute initState "X" .buy 2 50 T0 none).2 = none ∧
    (execute (execute initState "X" .buy 2 50 T0 none).1 "X" .sell 2 50 T1
      none).2 = none ∧
    (execute (execute initState "X" .buy 2 50 T0 none).1 "X" .sell 2 50 T1
      none).1.virtual_cash = initState.virtual_cash ∧
    lookupA (execute (execute initState "X" .buy 2 50 T0 none).1 "X" .sell 2
      50 T1 none).1.holdings "X" = some ⟨0, 0⟩ ∧
    (execute (execute initState "X" .buy 2 50 T0 none).1 "X" .sell 2 50 T1
      none).1.trades.length = initState.trades.length + 2 :=
  buy_sell_round_trip initState "X" 2 50 T0 T1 none none rfl (by norm_num)
    (by norm_num) (by norm_num [initState])

end ChronoStox
